import Mathlib

/-!
Shallow embedding of `hai/parallel.py` (the `ParallelRun` task-orchestration
core of the `hai` library) and proofs about it.

Modelling conventions:
* A task handle (`multiprocessing.pool.ApplyResult` with the `name` attribute
  that `add_task` sets on it) is modelled as an `ApplyResult` structure holding
  its name, its readiness flag (`.ready()`), its `_success` flag and its
  `_value` slot.  `_value` holds the return value when `_success` is true and
  the captured exception otherwise, exactly as in CPython's pool.
* Values and exceptions both live in one type parameter `α`, mirroring the
  untyped `_value` slot.
* `self.tasks` is the ordered registry (submission order); the weak set
  `self.completed_tasks` is modelled as a list of indices into the registry,
  since membership in the weak set is object identity, i.e. registry position.
* Python dicts built by comprehensions are modelled as insertion-ordered
  association lists where inserting an existing key updates the value in
  place (`dictInsert`), matching CPython dict semantics.
* Wall-clock time is modelled by a function `elapsed : Nat → Nat` giving the
  value of `time.time() - start_time` sampled at the top of loop iteration
  `k`; the loop itself carries a fuel parameter because the real loop can spin
  forever while a task stays unready.
-/

set_option autoImplicit false

namespace HaiParallel

variable {α : Type}

/-- Model of an `ApplyResult` task handle as `wait`/the read views see it:
the `name` attribute set by `add_task`, the `.ready()` poll result, and the
`_success` / `_value` pair written by the worker on completion. -/
structure ApplyResult (α : Type) where
  name : String
  ready : Bool
  success : Bool
  value : α
  deriving Repr, DecidableEq

/-- Model of the `TaskFailed` exception raised on the fail-fast path: it
references the failing handle's name (`task_name`, also embedded in the
message `[name] ...`) and carries the captured error (`exception`, which is
also the chained `__cause__` since the code raises `... from exc`). -/
structure TaskFailed (α : Type) where
  task_name : String
  exception : α
  deriving Repr, DecidableEq

/-- Model of the `TasksFailed` aggregate exception raised by `maybe_raise`,
carrying the name-to-exception mapping. -/
structure TasksFailed (α : Type) where
  exception_map : List (String × α)
  deriving Repr, DecidableEq

/-- Model of `TasksFailed.failed_task_names`: the key set of the exception
map (keys of a Python dict are unique, so the list of keys is the set). -/
def TasksFailed.failed_task_names (e : TasksFailed α) : List String :=
  e.exception_map.map (fun p => p.1)

/-- Registry state of a `ParallelRun` (or of a chord): the ordered task list
`self.tasks` and the completed-task cache `self.completed_tasks`, the latter
as indices into the former. -/
structure PRun (α : Type) where
  tasks : List (ApplyResult α)
  completed : List Nat
  deriving Repr, DecidableEq

/-- Model of `add_task` after the name has been resolved: append the handle
to the registry and clear the completed-task cache (lines 88 and 93 of
`parallel.py`). -/
def addTask (r : PRun α) (t : ApplyResult α) : PRun α :=
  ⟨r.tasks ++ [t], []⟩

/-! Python-dict model: insertion-ordered association list, inserting an
existing key updates its value in place, lookup scans from the front. -/

/-- Insert into a Python-dict model: if the key is present, update its value
in place; otherwise append the pair at the end. -/
def dictInsert (d : List (String × α)) (k : String) (v : α) : List (String × α) :=
  if d.any (fun p => p.1 == k) then
    d.map (fun p => if p.1 == k then (k, v) else p)
  else
    d ++ [(k, v)]

/-- Lookup in a Python-dict model. -/
def dictLookup (d : List (String × α)) (k : String) : Option α :=
  (d.find? (fun p => p.1 == k)).map (fun p => p.2)

/-- Build a Python dict from an ordered list of key-value pairs, as a dict
comprehension does: later pairs with the same key overwrite earlier values. -/
def pyDict (ps : List (String × α)) : List (String × α) :=
  ps.foldl (fun d p => dictInsert d p.1 p.2) []

/-- Model of the `return_values` property:
`{t.name: t._value for t in self.tasks if t.ready()}`.  Note the only filter
is `t.ready()`: the `_success` flag is not consulted. -/
def returnValues (tasks : List (ApplyResult α)) : List (String × α) :=
  pyDict ((tasks.filter (fun t => t.ready)).map (fun t => (t.name, t.value)))

/-- Model of the `exceptions` property:
`{t.name: t._value for t in self.tasks if t.ready() and not t._success}`. -/
def exceptions (tasks : List (ApplyResult α)) : List (String × α) :=
  pyDict ((tasks.filter (fun t => t.ready && !t.success)).map
    (fun t => (t.name, t.value)))

/-- Model of `maybe_raise`: recompute `self.exceptions` and raise
`TasksFailed` carrying it unless it is empty.  Raising is modelled by
returning `some` of the exception; `none` is the no-op return. -/
def maybeRaise (tasks : List (ApplyResult α)) : Option (TasksFailed α) :=
  let e := exceptions tasks
  if e.isEmpty then none else some ⟨e⟩

/-! Name resolution in `add_task` (line 78-79 of `parallel.py`):
`if not name: name = (getattr(task, '__name__' or None) or str(task))`. -/

/-- A Python callable as `add_task`'s name derivation sees it: its `__name__`
attribute when the object has one, and its `str()` form. -/
structure PyCallable where
  dunderName : Option String
  strForm : String
  deriving Repr, DecidableEq

/-- Truthiness of the optional `name` argument (Python: `if not name:`; the
empty string is falsy). -/
def pyTruthyName (name : Option String) : Bool :=
  match name with
  | none => false
  | some s => !s.isEmpty

/-- Model of `name = (getattr(task, '__name__' or None) or str(task))` in
`add_task`.  Since `'__name__' or None` evaluates to the truthy string
`'__name__'`, this is the two-argument form `getattr(task, '__name__')`,
which raises `AttributeError` when the callable has no `__name__` attribute;
the `or str(task)` fallback is only reached when `__name__` exists but is
falsy.  The `AttributeError` is modelled as the `Except.error` case. -/
def resolveName (name : Option String) (task : PyCallable) : Except String String :=
  if pyTruthyName name then
    Except.ok (match name with | some s => s | none => "")
  else
    match task.dunderName with
    | none => Except.error "AttributeError"
    | some dn => Except.ok (if dn.isEmpty then task.strForm else dn)

/-! The `wait` loop (`wait` and `_wait_tick` in `parallel.py`). -/

/-- Outcome of a `wait` call: normal return of the completed-task list
(as registry indices), a `TaskFailed` raise from the fail-fast path, a
`TimeoutError` raise carrying waited-for and max-wait, or exhaustion of the
fuel bound (the real loop would still be spinning). -/
inductive WaitOutcome (α : Type) where
  | completed : List Nat → WaitOutcome α
  | taskFailed : TaskFailed α → WaitOutcome α
  | timeout : Nat → Nat → WaitOutcome α
  | outOfFuel : WaitOutcome α
  deriving Repr, DecidableEq

/-- One pass of the scan in `_wait_tick` over the remaining tasks, carrying
the index `off` of the first task in `ts`, the completed-index set `acc` and
the `had_any_incomplete_task` flag `inc`.  Returns the updated completed set,
the final flag, and `some` of the `TaskFailed` exception when the fail-fast
raise fires (the completed set already contains the failing task, since the
code adds the task to `completed_tasks` before raising). -/
def tickGo (failFast : Bool) :
    List (ApplyResult α) → Nat → List Nat → Bool →
      List Nat × Bool × Option (TaskFailed α)
  | [], _, acc, inc => (acc, inc, none)
  | t :: ts, off, acc, inc =>
    if off ∈ acc then
      tickGo failFast ts (off + 1) acc inc
    else if !t.ready then
      tickGo failFast ts (off + 1) acc true
    else if failFast && !t.success then
      (off :: acc, inc, some ⟨t.name, t.value⟩)
    else
      tickGo failFast ts (off + 1) (off :: acc) inc

/-- Model of `_wait_tick`: scan the whole registry from index 0 against the
current completed set. -/
def waitTick (failFast : Bool) (r : PRun α) :
    PRun α × Bool × Option (TaskFailed α) :=
  let res := tickGo failFast r.tasks 0 r.completed false
  (⟨r.tasks, res.1⟩, res.2.1, res.2.2)

/-- Truthiness of the `max_wait` argument (Python: `if max_wait:`); `None`
and `0` are both falsy, so either means no time limit. -/
def maxWaitTruthy (maxWait : Option Nat) : Bool :=
  match maxWait with
  | none => false
  | some w => w != 0

/-- The timeout test at the top of each loop iteration:
`if max_wait:` followed by `if waited_for > max_wait:`. -/
def timeoutFires (maxWait : Option Nat) (waitedFor : Nat) : Bool :=
  maxWaitTruthy maxWait && decide (waitedFor > maxWait.getD 0)

/-- The `while True:` body of `wait`, modelled with fuel.  Iteration `k`
first runs the timeout check on `elapsed k`, then `_wait_tick`, then the two
break conditions (`not had_any_incomplete_task` and
`len(completed_tasks) == len(tasks)`); otherwise it sleeps (a no-op here)
and loops.  The supplied `callback`, having no effect on the model state, is
omitted.  Returns the outcome together with the final registry state. -/
def waitLoop (failFast : Bool) (maxWait : Option Nat) (elapsed : Nat → Nat) :
    Nat → Nat → PRun α → WaitOutcome α × PRun α
  | 0, _, r => (WaitOutcome.outOfFuel, r)
  | fuel + 1, k, r =>
    if timeoutFires maxWait (elapsed k) then
      (WaitOutcome.timeout (elapsed k) (maxWait.getD 0), r)
    else
      match waitTick failFast r with
      | (r', _, some e) => (WaitOutcome.taskFailed e, r')
      | (r', inc, none) =>
        if !inc then
          (WaitOutcome.completed r'.completed, r')
        else if r'.completed.length == r'.tasks.length then
          (WaitOutcome.completed r'.completed, r')
        else
          waitLoop failFast maxWait elapsed fuel (k + 1) r'

/-- Model of `wait`: clear the completed-task cache
(`self.completed_tasks.clear()`, line 130), then run the loop from
iteration 0. -/
def wait (failFast : Bool) (maxWait : Option Nat) (elapsed : Nat → Nat)
    (fuel : Nat) (r : PRun α) : WaitOutcome α × PRun α :=
  waitLoop failFast maxWait elapsed fuel 0 ⟨r.tasks, []⟩

/-! Orchestrator and Chord.  The `ParallelRun` class also owns the thread
pool; the pool itself (CPython's `multiprocessing.pool.ThreadPool`) is
outside the registry logic modelled above and is represented by an opaque
identifier, since the claims about chords only concern which pool a chord is
bound to and which handles its registry holds. -/

/-- The orchestrator: owns a Worker Pool (opaque identifier) and a top-level
registry. -/
structure ParallelRun (α : Type) where
  pool : Nat
  run : PRun α
  deriving Repr, DecidableEq

/-- Modelled from the spec: the `Chord` class is not under `src/` (only the
tests call `parallel.chord()`).  Per the spec, a Chord is a nested task
registry bound by reference to the same Worker Pool as its enclosing
orchestrator, with its own task subset and its own independent
`add_task`/`wait`/`maybe_raise`/`return_values`/`exceptions` contract. -/
structure Chord (α : Type) where
  pool : Nat
  run : PRun α
  deriving Repr, DecidableEq

/-- Modelled from the spec: `chord() -> Chord` creates and returns a new
Chord bound to this orchestrator's Worker Pool, with a fresh empty
registry. -/
def ParallelRun.chord (p : ParallelRun α) : Chord α :=
  ⟨p.pool, ⟨[], []⟩⟩

/-- Modelled from the spec: `add_task` on a Chord, identical contract to the
orchestrator's, registering the handle on the Chord's own registry. -/
def Chord.addTask (c : Chord α) (t : ApplyResult α) : Chord α :=
  ⟨c.pool, HaiParallel.addTask c.run t⟩

/-- Modelled from the spec: `wait` on a Chord, identical contract to the
orchestrator's, scoped to the Chord's own registry. -/
def Chord.wait (c : Chord α) (failFast : Bool) (maxWait : Option Nat)
    (elapsed : Nat → Nat) (fuel : Nat) : WaitOutcome α × PRun α :=
  HaiParallel.wait failFast maxWait elapsed fuel c.run

/-- Modelled from the spec: `return_values` on a Chord, scoped to its own
registry. -/
def Chord.returnValues (c : Chord α) : List (String × α) :=
  HaiParallel.returnValues c.run.tasks

/-- Modelled from the spec: `exceptions` on a Chord, scoped to its own
registry. -/
def Chord.exceptions (c : Chord α) : List (String × α) :=
  HaiParallel.exceptions c.run.tasks

/-- Modelled from the spec: `maybe_raise` on a Chord, scoped to its own
registry. -/
def Chord.maybeRaise (c : Chord α) : Option (TasksFailed α) :=
  HaiParallel.maybeRaise c.run.tasks

/-! Lemmas about the Python-dict model. -/

theorem find?_map_update_self (d : List (String × α)) (k : String) (v : α)
    (h : d.any (fun p => p.1 == k) = true) :
    (d.map (fun p => if p.1 == k then (k, v) else p)).find?
        (fun p => p.1 == k) = some (k, v) := by
  induction d with
  | nil => simp at h
  | cons p rest ih =>
    cases hp : (p.1 == k) with
    | true =>
      rw [List.map_cons, if_pos hp, List.find?_cons_of_pos _ (by simp)]
    | false =>
      have h' : rest.any (fun p => p.1 == k) = true := by
        simp only [List.any_cons, hp, Bool.false_or] at h
        exact h
      rw [List.map_cons, if_neg (by simp [hp]),
        List.find?_cons_of_neg _ (by simp [hp])]
      exact ih h'

theorem find?_map_update_ne (d : List (String × α)) (k k' : String) (v : α)
    (hne : k' ≠ k) :
    (d.map (fun p => if p.1 == k then (k, v) else p)).find?
        (fun p => p.1 == k') = d.find? (fun p => p.1 == k') := by
  have h1 : (k == k') = false := beq_eq_false_iff_ne.mpr (Ne.symm hne)
  induction d with
  | nil => rfl
  | cons p rest ih =>
    cases hp : (p.1 == k) with
    | true =>
      have hpk : p.1 = k := eq_of_beq hp
      have h2 : (p.1 == k') = false := by rw [hpk]; exact h1
      rw [List.map_cons, if_pos hp, List.find?_cons_of_neg _ (by simp [h1]),
        List.find?_cons_of_neg _ (by simp [h2])]
      exact ih
    | false =>
      cases hq : (p.1 == k') with
      | true =>
        rw [List.map_cons, if_neg (by simp [hp]),
          List.find?_cons_of_pos _ (by simpa using hq),
          List.find?_cons_of_pos _ (by simpa using hq)]
      | false =>
        rw [List.map_cons, if_neg (by simp [hp]),
          List.find?_cons_of_neg _ (by simp [hq]),
          List.find?_cons_of_neg _ (by simp [hq])]
        exact ih

theorem dictLookup_dictInsert_self (d : List (String × α)) (k : String) (v : α) :
    dictLookup (dictInsert d k v) k = some v := by
  unfold dictInsert dictLookup
  cases h : d.any (fun p => p.1 == k) with
  | true =>
    rw [if_pos rfl, find?_map_update_self d k v h, Option.map_some']
  | false =>
    have hnone : d.find? (fun p => p.1 == k) = none :=
      List.find?_eq_none.mpr (List.any_eq_false.mp h)
    rw [if_neg Bool.false_ne_true, List.find?_append, hnone, Option.none_or,
      List.find?_cons_of_pos _ (by simp), Option.map_some']

theorem dictLookup_dictInsert_ne (d : List (String × α)) (k k' : String) (v : α)
    (hne : k' ≠ k) :
    dictLookup (dictInsert d k v) k' = dictLookup d k' := by
  unfold dictInsert dictLookup
  cases h : d.any (fun p => p.1 == k) with
  | true =>
    rw [if_pos rfl, find?_map_update_ne d k k' v hne]
  | false =>
    have h1 : (k == k') = false := beq_eq_false_iff_ne.mpr (Ne.symm hne)
    rw [if_neg Bool.false_ne_true, List.find?_append,
      List.find?_cons_of_neg _ (by simp [h1]), List.find?_nil, Option.or_none]

theorem dictLookup_foldl_insert (ps : List (String × α)) :
    ∀ (d : List (String × α)) (k : String),
    dictLookup (ps.foldl (fun d p => dictInsert d p.1 p.2) d) k =
      match (ps.filter (fun p => p.1 == k)).getLast? with
      | some p => some p.2
      | none => dictLookup d k := by
  induction ps with
  | nil => intro d k; rfl
  | cons p rest ih =>
    intro d k
    rw [List.foldl_cons, ih (dictInsert d p.1 p.2) k, List.filter_cons]
    cases hp : (p.1 == k) with
    | true =>
      have hpk : p.1 = k := eq_of_beq hp
      rw [if_pos rfl]
      rcases hfr : (rest.filter (fun q => q.1 == k)).getLast? with _ | q
      · have hnil : rest.filter (fun q => q.1 == k) = [] :=
          List.getLast?_eq_none_iff.mp hfr
        rw [hfr, hnil, List.getLast?_singleton]
        show dictLookup (dictInsert d p.1 p.2) k = some p.2
        rw [← hpk]
        exact dictLookup_dictInsert_self d p.1 p.2
      · have hsome : (p :: rest.filter (fun q => q.1 == k)).getLast? = some q := by
          cases hx : rest.filter (fun q => q.1 == k) with
          | nil => rw [hx] at hfr; simp at hfr
          | cons a l =>
            rw [List.getLast?_cons_cons]
            rw [hx] at hfr
            exact hfr
        rw [hfr, hsome]
    | false =>
      rw [if_neg Bool.false_ne_true]
      have hne : k ≠ p.1 := by
        intro hh
        rw [hh, beq_self_eq_true] at hp
        simp at hp
      rcases hfr : (rest.filter (fun q => q.1 == k)).getLast? with _ | q
      · rw [hfr]
        show dictLookup (dictInsert d p.1 p.2) k = dictLookup d k
        exact dictLookup_dictInsert_ne d p.1 k p.2 hne
      · rw [hfr]

theorem dictLookup_pyDict (ps : List (String × α)) (k : String) :
    dictLookup (pyDict ps) k =
      ((ps.filter (fun p => p.1 == k)).getLast?).map (fun p => p.2) := by
  unfold pyDict
  rw [dictLookup_foldl_insert]
  cases (ps.filter (fun p => p.1 == k)).getLast? <;> rfl

/-! Characterizations of the two read views. -/

theorem dictLookup_returnValues (tasks : List (ApplyResult α)) (n : String) :
    dictLookup (returnValues tasks) n =
      ((tasks.filter (fun t => t.name == n && t.ready)).getLast?).map
        (fun t => t.value) := by
  unfold returnValues
  rw [dictLookup_pyDict, List.filter_map, List.filter_filter,
    List.getLast?_map, Option.map_map]
  rfl

theorem dictLookup_exceptions (tasks : List (ApplyResult α)) (n : String) :
    dictLookup (exceptions tasks) n =
      ((tasks.filter (fun t => t.name == n && (t.ready && !t.success))).getLast?).map
        (fun t => t.value) := by
  unfold exceptions
  rw [dictLookup_pyDict, List.filter_map, List.filter_filter,
    List.getLast?_map, Option.map_map]
  rfl

/-! Claim C2. -/

/-- C2 (counterexample): the claim states that `return_values` excludes every
currently-terminal Failed task.  In the code the comprehension filters on
`t.ready()` only, so a terminal Failed task appears in the mapping with its
captured exception as the value: with tasks `agh` (terminal, Failed, error
"agh!") and `return_true` (terminal, Succeeded), `return_values` maps `agh`
to the exception instead of omitting it.  The repository's own test
`test_parallel_chord_task_fail` asserts this inclusion
(`isinstance(parallel.return_values["chord_fail"]["task_1"], RuntimeError)`),
so the code, not the spec sentence, is authoritative here. -/
theorem claim_C2_counterexample :
    dictLookup (returnValues
      [(⟨"agh", true, false, "agh!"⟩ : ApplyResult String),
       ⟨"return_true", true, true, "True"⟩]) "agh" = some "agh!" := by
  rfl

/-- C2 (amended): `return_values` maps name to stored `_value` for exactly
the currently-terminal (`ready`) tasks, regardless of success — a terminal
Failed task is included with its captured exception as the value — while
every non-terminal task is excluded, without raising; on duplicate names the
last-submitted terminal task wins. -/
theorem claim_C2_return_values_view (tasks : List (ApplyResult α)) (n : String) :
    dictLookup (returnValues tasks) n =
      ((tasks.filter (fun t => t.name == n && t.ready)).getLast?).map
        (fun t => t.value) ∧
    ((∀ t ∈ tasks, t.name = n → t.ready = false) →
      dictLookup (returnValues tasks) n = none) := by
  constructor
  · exact dictLookup_returnValues tasks n
  · intro hall
    rw [dictLookup_returnValues tasks n]
    have hnil : tasks.filter (fun t => t.name == n && t.ready) = [] := by
      apply List.filter_eq_nil_iff.mpr
      intro t ht
      cases hn : (t.name == n) with
      | true =>
        have := hall t ht (eq_of_beq hn)
        simp [this]
      | false => simp
    rw [hnil]
    rfl

/-- C2 (amended) witness: instantiates the view characterization at a
two-task state with one terminal Failed and one terminal Succeeded task,
discharging the non-terminal hypothesis at a name borne only by a pending
task. -/
theorem claim_C2_return_values_view_witness :
    dictLookup (returnValues
      [(⟨"agh", true, false, "agh!"⟩ : ApplyResult String),
       ⟨"pend", false, false, "?"⟩]) "pend" = none := by
  exact (claim_C2_return_values_view
    [(⟨"agh", true, false, "agh!"⟩ : ApplyResult String),
     ⟨"pend", false, false, "?"⟩] "pend").2 (by decide)

/-! Claim C4. -/

/-- C4 (counterexample): after a `fail_fast=false` wait over the terminal
tasks `agh` (Failed, error "agh!") and `true` (Succeeded), the first
`maybe_raise` raises the aggregate with failed-name set `{agh}` — but the
claim's final clause is false: `maybe_raise` holds no record of already
surfaced failures (it recomputes `self.exceptions` from the unchanged task
states on every call), so the second call evaluates the very same expression
and raises again instead of being a no-op. -/
theorem claim_C4_counterexample :
    maybeRaise [(⟨"agh", true, false, "agh!"⟩ : ApplyResult String),
      ⟨"true", true, true, "True"⟩] ≠ none ∧
    (maybeRaise [(⟨"agh", true, false, "agh!"⟩ : ApplyResult String),
      ⟨"true", true, true, "True"⟩]).map TasksFailed.failed_task_names =
      some ["agh"] := by
  constructor
  · decide
  · rfl

/-- C4 (amended): whenever the currently-terminal Failed tasks are exactly
one task with name `nf` and error `v` (the state after a `fail_fast=false`
wait over one failing and one succeeding task), `maybe_raise` raises an
aggregate whose failed-name set is exactly `[nf]`; and since `maybe_raise`
recomputes the exception map from the unchanged registry on every call, a
repeated call with no further failures raises the same aggregate again
rather than being a no-op. -/
theorem claim_C4_maybe_raise_aggregate (tasks : List (ApplyResult α))
    (nf : String) (v : α)
    (h : (tasks.filter (fun t => t.ready && !t.success)).map
      (fun t => (t.name, t.value)) = [(nf, v)]) :
    maybeRaise tasks = some ⟨[(nf, v)]⟩ ∧
    TasksFailed.failed_task_names ⟨[(nf, v)]⟩ = [nf] := by
  have he : exceptions tasks = [(nf, v)] := by
    unfold exceptions
    rw [h]
    rfl
  constructor
  · unfold maybeRaise
    rw [he]
    rfl
  · rfl

/-- C4 (amended) witness: the one-failing/one-succeeding scenario of the
claim, with the failing task named `agh`. -/
theorem claim_C4_maybe_raise_aggregate_witness :
    maybeRaise [(⟨"true", true, true, "True"⟩ : ApplyResult String),
      ⟨"agh", true, false, "agh!"⟩] = some ⟨[("agh", "agh!")]⟩ ∧
    TasksFailed.failed_task_names ⟨[("agh", "agh!")]⟩ = ["agh"] := by
  exact claim_C4_maybe_raise_aggregate
    [(⟨"true", true, true, "True"⟩ : ApplyResult String),
     ⟨"agh", true, false, "agh!"⟩] "agh" "agh!" (by decide)

/-! Claim C6. -/

/-- C6 (code bug): the claim (and the spec's pinned fallback order) says an
`add_task` on a callable exposing no `__name__` still succeeds and uses the
callable's textual form.  The code has `getattr(task, '__name__' or None)`:
`'__name__' or None` evaluates to `'__name__'`, making this the two-argument
`getattr` with no default, which raises `AttributeError` for such a callable
— the `or str(task)` fallback is dead code for exactly the case it was
written for (it is reached only when `__name__` exists but is falsy).  The
intended `getattr(task, '__name__', None)` is evident from the docstring
("If none is specified, it's derived from the callable") and the dead
fallback.  This theorem evaluates the modelled line: the first conjunct is
the failing input (no explicit name, callable without `__name__`, e.g. a
`functools.partial` object); the remaining conjuncts show the claim's other
two branches (explicit name wins; `__name__` used when present) do hold. -/
theorem claim_C6_name_fallback_bug :
    resolveName none ⟨none, "functools.partial(<function f at 0x0>)"⟩ =
      Except.error "AttributeError" ∧
    resolveName (some "blerg") ⟨none, "x"⟩ = Except.ok "blerg" ∧
    resolveName none ⟨some "agh", "<function agh>"⟩ = Except.ok "agh" := by
  exact ⟨rfl, rfl, rfl⟩

/-! Claim C7. -/

/-- C7: duplicate task names are accepted without validation (`add_task`
appends unconditionally), and both name-keyed views follow last-write-wins:
in a registry `l ++ [b]` whose earlier part contains a terminal task `a`
with the same name `n` as the later-submitted terminal Failed task `b`, both
`return_values` and `exceptions` map `n` to `b`'s stored value. -/
theorem claim_C7_duplicate_names_last_write_wins (r : PRun α)
    (c : ApplyResult α) (l : List (ApplyResult α)) (a b : ApplyResult α)
    (n : String) (_hmem : a ∈ l) (_han : a.name = n) (_har : a.ready = true)
    (hbn : b.name = n) (hbr : b.ready = true) (hbs : b.success = false) :
    (addTask r c).tasks = r.tasks ++ [c] ∧
    dictLookup (returnValues (l ++ [b])) n = some b.value ∧
    dictLookup (exceptions (l ++ [b])) n = some b.value := by
  refine ⟨rfl, ?_, ?_⟩
  · rw [dictLookup_returnValues, List.filter_append,
      List.filter_cons_of_pos (by rw [hbn]; simp [hbr]), List.filter_nil,
      List.getLast?_concat]
    rfl
  · rw [dictLookup_exceptions, List.filter_append,
      List.filter_cons_of_pos (by rw [hbn]; simp [hbr, hbs]), List.filter_nil,
      List.getLast?_concat]
    rfl

/-- C7 witness: two terminal tasks named `x`, the earlier Succeeded with
value "first", the later Failed with value "second"; both views map `x` to
"second". -/
theorem claim_C7_duplicate_names_last_write_wins_witness :
    (addTask (⟨[], []⟩ : PRun String) ⟨"x", false, false, "?"⟩).tasks =
      [] ++ [⟨"x", false, false, "?"⟩] ∧
    dictLookup (returnValues
      ([(⟨"x", true, true, "first"⟩ : ApplyResult String)] ++
        [⟨"x", true, false, "second"⟩])) "x" = some "second" ∧
    dictLookup (exceptions
      ([(⟨"x", true, true, "first"⟩ : ApplyResult String)] ++
        [⟨"x", true, false, "second"⟩])) "x" = some "second" := by
  exact claim_C7_duplicate_names_last_write_wins (⟨[], []⟩ : PRun String)
    ⟨"x", false, false, "?"⟩ [⟨"x", true, true, "first"⟩]
    ⟨"x", true, true, "first"⟩ ⟨"x", true, false, "second"⟩ "x"
    (by decide) rfl rfl rfl rfl rfl

/-! Lemmas about the scan and the wait loop. -/

theorem waitTick_tasks (failFast : Bool) (r : PRun α) :
    ((waitTick failFast r).1).tasks = r.tasks := rfl

theorem waitLoop_tasks (failFast : Bool) (maxWait : Option Nat)
    (elapsed : Nat → Nat) :
    ∀ (fuel k : Nat) (r : PRun α),
      ((waitLoop failFast maxWait elapsed fuel k r).2).tasks = r.tasks := by
  intro fuel
  induction fuel with
  | zero => intro k r; rfl
  | succ fuel ih =>
    intro k r
    simp only [waitLoop]
    cases ht : timeoutFires maxWait (elapsed k) with
    | true => rfl
    | false =>
      simp only [Bool.false_eq_true, if_false]
      rcases hw : waitTick failFast r with ⟨r', inc, err⟩
      have hr' : r'.tasks = r.tasks := by
        rw [← waitTick_tasks failFast r, hw]
      cases err with
      | some e => exact hr'
      | none =>
        cases inc with
        | false => exact hr'
        | true =>
          simp only [Bool.not_true, Bool.false_eq_true, if_false]
          cases hl : r'.completed.length == r'.tasks.length with
          | true => exact hr'
          | false =>
            simp only [Bool.false_eq_true, if_false]
            rw [ih (k + 1) r', hr']

theorem wait_tasks (failFast : Bool) (maxWait : Option Nat)
    (elapsed : Nat → Nat) (fuel : Nat) (r : PRun α) :
    ((wait failFast maxWait elapsed fuel r).2).tasks = r.tasks := by
  unfold wait
  exact waitLoop_tasks failFast maxWait elapsed fuel 0 ⟨r.tasks, []⟩

theorem waitLoop_no_timeout (failFast : Bool) (maxWait : Option Nat)
    (elapsed : Nat → Nat) (h : maxWaitTruthy maxWait = false) :
    ∀ (fuel k : Nat) (r : PRun α) (w m : Nat),
      (waitLoop failFast maxWait elapsed fuel k r).1 ≠
        WaitOutcome.timeout w m := by
  intro fuel
  induction fuel with
  | zero =>
    intro k r w m hcontra
    exact absurd hcontra (by simp [waitLoop])
  | succ fuel ih =>
    intro k r w m
    have ht : timeoutFires maxWait (elapsed k) = false := by
      unfold timeoutFires
      rw [h]
      rfl
    simp only [waitLoop, ht, Bool.false_eq_true, if_false]
    rcases hw : waitTick failFast r with ⟨r', inc, err⟩
    cases err with
    | some e => simp
    | none =>
      cases inc with
      | false => simp
      | true =>
        simp only [Bool.not_true, Bool.false_eq_true, if_false]
        cases hl : r'.completed.length == r'.tasks.length with
        | true => simp
        | false =>
          simp only [Bool.false_eq_true, if_false]
          exact ih (k + 1) r' w m

theorem tickGo_all_ready (failFast : Bool) :
    ∀ (ts : List (ApplyResult α)) (off : Nat) (acc : List Nat) (inc : Bool),
    (∀ t ∈ ts, t.ready = true) →
    (failFast = false ∨ ∀ t ∈ ts, t.success = true) →
    (tickGo failFast ts off acc inc).2.2 = none ∧
    (tickGo failFast ts off acc inc).2.1 = inc ∧
    (∀ j, (j ∈ acc ∨ (off ≤ j ∧ j < off + ts.length)) →
      j ∈ (tickGo failFast ts off acc inc).1) := by
  intro ts
  induction ts with
  | nil =>
    intro off acc inc _ _
    refine ⟨rfl, rfl, ?_⟩
    intro j hj
    rcases hj with hj | ⟨h1, h2⟩
    · exact hj
    · exfalso
      simp only [List.length_nil, Nat.add_zero] at h2
      omega
  | cons t ts ih =>
    intro off acc inc hready hok
    have htr : t.ready = true := hready t (List.mem_cons_self t ts)
    have hready' : ∀ x ∈ ts, x.ready = true :=
      fun x hx => hready x (List.mem_cons_of_mem t hx)
    have hok' : failFast = false ∨ ∀ x ∈ ts, x.success = true := by
      rcases hok with hok | hok
      · exact Or.inl hok
      · exact Or.inr (fun x hx => hok x (List.mem_cons_of_mem t hx))
    by_cases hoff : off ∈ acc
    · simp only [tickGo, if_pos hoff]
      rcases ih (off + 1) acc inc hready' hok' with ⟨he, hi, hm⟩
      refine ⟨he, hi, ?_⟩
      intro j hj
      apply hm
      rcases hj with hj | ⟨h1, h2⟩
      · exact Or.inl hj
      · rcases Nat.eq_or_lt_of_le h1 with rfl | hlt
        · exact Or.inl hoff
        · right
          simp only [List.length_cons] at h2
          omega
    · have hnofail : (failFast && !t.success) = false := by
        rcases hok with hok | hok
        · rw [hok]; rfl
        · rw [hok t (List.mem_cons_self t ts)]
          simp
      simp only [tickGo, if_neg hoff, htr, Bool.not_true, Bool.false_eq_true,
        if_false, hnofail]
      rcases ih (off + 1) (off :: acc) inc hready' hok' with ⟨he, hi, hm⟩
      refine ⟨he, hi, ?_⟩
      intro j hj
      apply hm
      rcases hj with hj | ⟨h1, h2⟩
      · exact Or.inl (List.mem_cons_of_mem off hj)
      · rcases Nat.eq_or_lt_of_le h1 with rfl | hlt
        · exact Or.inl (List.mem_cons_self off acc)
        · right
          simp only [List.length_cons] at h2
          omega

/-! Claim C3. -/

/-- C3: first conjunct — once a scan completes having found every registered
handle terminal, `wait` returns the completed outcome, covering every
registered handle: the break on "no incomplete task" fires before the next
iteration's `max_wait` check, so no timeout can be raised after such a scan
even if wall-clock time has already exceeded `max_wait` by then (the
hypotheses constrain `elapsed` only at iteration 0, so `elapsed` may exceed
`max_wait` from iteration 1 on; the scan itself must not fail-fast-raise,
hence the `failFast = false` or all-successful hypothesis).  Second
conjunct — for every `wait` call, over any registry and timing whatsoever
(fresh binders, not restricted by the first conjunct's hypotheses): when the
call raises the timeout, the registry's task states are unchanged and in
particular its Failed set (`exceptions` view) is exactly what it was before
the call — no task is marked Failed by the timeout. -/
theorem claim_C3_terminal_check_beats_timeout (failFast : Bool)
    (maxWait : Option Nat) (elapsed : Nat → Nat) (fuel : Nat) (r : PRun α)
    (hfuel : 1 ≤ fuel)
    (hready : ∀ t ∈ r.tasks, t.ready = true)
    (hok : failFast = false ∨ ∀ t ∈ r.tasks, t.success = true)
    (htime : timeoutFires maxWait (elapsed 0) = false) :
    (∃ comp, (wait failFast maxWait elapsed fuel r).1 =
        WaitOutcome.completed comp ∧ ∀ i < r.tasks.length, i ∈ comp) ∧
    (∀ (ff : Bool) (mw : Option Nat) (el : Nat → Nat) (fl : Nat)
      (r' : PRun α) (w m : Nat),
      (wait ff mw el fl r').1 = WaitOutcome.timeout w m →
      ((wait ff mw el fl r').2).tasks = r'.tasks ∧
      exceptions ((wait ff mw el fl r').2).tasks = exceptions r'.tasks) := by
  constructor
  · obtain ⟨f, rfl⟩ : ∃ f, fuel = f + 1 :=
      ⟨fuel - 1, (Nat.succ_pred_eq_of_pos hfuel).symm⟩
    rcases hres : tickGo failFast r.tasks 0 [] false with ⟨comp, inc2, err⟩
    have htick := tickGo_all_ready failFast r.tasks 0 [] false hready hok
    rw [hres] at htick
    rcases htick with ⟨he, hi, hm⟩
    simp only at he hi
    subst he hi
    refine ⟨comp, ?_, ?_⟩
    · unfold wait waitLoop
      rw [if_neg (by rw [htime]; exact Bool.false_ne_true)]
      simp only [waitTick, hres]
      rfl
    · intro i hilt
      exact hm i (Or.inr ⟨Nat.zero_le i, by simpa using hilt⟩)
  · intro ff mw el fl r' w m _
    refine ⟨wait_tasks ff mw el fl r', ?_⟩
    rw [wait_tasks ff mw el fl r']

/-- C3 witness: the first conjunct is exercised by two terminal tasks,
`max_wait = 1`, and an `elapsed` function that jumps far beyond `max_wait`
from iteration 1 on — `wait` still returns the completed outcome containing
both handles.  The second conjunct is exercised at a run that really raises
the timeout (an unready task, `max_wait = 3`, `elapsed k = 2k`, so the call
yields `timeout 4 3`), discharging the timeout hypothesis concretely: the
task list after that timing-out call is unchanged and its `exceptions` view
is still that of the original registry. -/
theorem claim_C3_terminal_check_beats_timeout_witness :
    (∃ comp, (wait false (some 1) (fun k => if k = 0 then 0 else 1000) 5
        (⟨[⟨"true", true, true, "True"⟩, ⟨"agh", true, false, "agh!"⟩],
          []⟩ : PRun String)).1 =
        WaitOutcome.completed comp ∧ ∀ i < 2, i ∈ comp) ∧
    (((wait false (some 3) (fun k => 2 * k) 10
        (⟨[⟨"slow", false, false, "?"⟩], []⟩ : PRun String)).2).tasks =
      [⟨"slow", false, false, "?"⟩] ∧
    exceptions ((wait false (some 3) (fun k => 2 * k) 10
        (⟨[⟨"slow", false, false, "?"⟩], []⟩ : PRun String)).2).tasks =
      exceptions [⟨"slow", false, false, "?"⟩]) := by
  refine ⟨(claim_C3_terminal_check_beats_timeout false (some 1)
      (fun k => if k = 0 then 0 else 1000) 5
      ⟨[⟨"true", true, true, "True"⟩, ⟨"agh", true, false, "agh!"⟩], []⟩
      (by decide) (by decide) (Or.inl rfl) (by decide)).1, ?_⟩
  exact (claim_C3_terminal_check_beats_timeout false (some 1)
      (fun k => if k = 0 then 0 else 1000) 5
      ⟨[⟨"true", true, true, "True"⟩, ⟨"agh", true, false, "agh!"⟩], []⟩
      (by decide) (by decide) (Or.inl rfl) (by decide)).2
    false (some 3) (fun k => 2 * k) 10 ⟨[⟨"slow", false, false, "?"⟩], []⟩
    4 3 rfl

/-! Claim C9. -/

/-- C9: when `max_wait` is `None` or `0`, the guard `if max_wait:` is falsy,
so the timeout branch is unreachable: no `wait` call ever yields a
`TimeoutError`, however large the elapsed wall-clock time grows — zero
means no limit, not an immediate timeout. -/
theorem claim_C9_falsy_max_wait_never_times_out (failFast : Bool)
    (maxWait : Option Nat) (elapsed : Nat → Nat) (fuel : Nat) (r : PRun α)
    (h : maxWaitTruthy maxWait = false) :
    ∀ w m, (wait failFast maxWait elapsed fuel r).1 ≠
      WaitOutcome.timeout w m := by
  intro w m
  unfold wait
  exact waitLoop_no_timeout failFast maxWait elapsed h fuel 0 ⟨r.tasks, []⟩ w m

/-- C9 witness: `max_wait = 0` with an unready task and elapsed time
growing without bound — the outcome (fuel exhaustion in the model, a spin
in the code) is never a timeout. -/
theorem claim_C9_falsy_max_wait_never_times_out_witness :
    (wait false (some 0) (fun k => 1000000 * k) 4
      (⟨[⟨"slow", false, false, "?"⟩], []⟩ : PRun String)).1 ≠
      WaitOutcome.timeout 4000000 0 := by
  exact claim_C9_falsy_max_wait_never_times_out false (some 0)
    (fun k => 1000000 * k) 4 ⟨[⟨"slow", false, false, "?"⟩], []⟩
    rfl 4000000 0

/-! Fail-fast scan lemmas. -/

theorem tickGo_first_fail :
    ∀ (ts : List (ApplyResult α)) (off : Nat) (acc : List Nat) (inc : Bool)
      (k : Nat) (hk : k < ts.length),
    (ts.get ⟨k, hk⟩).ready = true → (ts.get ⟨k, hk⟩).success = false →
    (∀ j (hj : j < ts.length), j < k →
      ¬((ts.get ⟨j, hj⟩).ready = true ∧ (ts.get ⟨j, hj⟩).success = false)) →
    (∀ j, off ≤ j → j ∉ acc) →
    (tickGo true ts off acc inc).2.2 =
      some ⟨(ts.get ⟨k, hk⟩).name, (ts.get ⟨k, hk⟩).value⟩ := by
  intro ts
  induction ts with
  | nil =>
    intro off acc inc k hk
    exact absurd hk (by simp)
  | cons t ts ih =>
    intro off acc inc k hk hready hfail hmin hacc
    have hoff : off ∉ acc := hacc off (Nat.le_refl off)
    have hacc' : ∀ j, off + 1 ≤ j → j ∉ acc :=
      fun j hj => hacc j (Nat.le_of_succ_le hj)
    cases k with
    | zero =>
      have htr : t.ready = true := hready
      have hts : t.success = false := hfail
      simp only [tickGo, if_neg hoff, htr, Bool.not_true, Bool.false_eq_true,
        if_false, hts, Bool.not_false, Bool.and_self, if_true]
      rfl
    | succ k =>
      have hk' : k < ts.length := Nat.lt_of_succ_lt_succ hk
      have hmin' : ∀ j (hj : j < ts.length), j < k →
          ¬((ts.get ⟨j, hj⟩).ready = true ∧ (ts.get ⟨j, hj⟩).success = false) :=
        fun j hj hjk =>
          hmin (j + 1) (Nat.succ_lt_succ hj) (Nat.succ_lt_succ hjk)
      have hmin0 : ¬(t.ready = true ∧ t.success = false) :=
        hmin 0 (by simp) (Nat.succ_pos k)
      cases htr : t.ready with
      | false =>
        simp only [tickGo, if_neg hoff, htr, Bool.not_false, if_true]
        exact ih (off + 1) acc true k hk' hready hfail hmin' hacc'
      | true =>
        have hts : t.success = true := by
          cases hs : t.success with
          | true => rfl
          | false => exact absurd ⟨htr, hs⟩ hmin0
        have hacc3 : ∀ j, off + 1 ≤ j → j ∉ off :: acc := by
          intro j hj hmem
          rcases List.mem_cons.mp hmem with rfl | hmem'
          · omega
          · exact hacc j (by omega) hmem'
        simp only [tickGo, if_neg hoff, htr, Bool.not_true, Bool.false_eq_true,
          if_false, hts, Bool.and_false, if_false]
        exact ih (off + 1) (off :: acc) inc k hk' hready hfail hmin' hacc3

theorem tickGo_exists_fail :
    ∀ (ts : List (ApplyResult α)) (off : Nat) (acc : List Nat) (inc : Bool),
    (∃ t ∈ ts, t.ready = true ∧ t.success = false) →
    (∀ j, off ≤ j → j ∉ acc) →
    ((tickGo true ts off acc inc).2.2).isSome = true := by
  intro ts
  induction ts with
  | nil =>
    intro off acc inc hex _
    rcases hex with ⟨t, ht, _⟩
    exact absurd ht (List.not_mem_nil t)
  | cons t ts ih =>
    intro off acc inc hex hacc
    have hoff : off ∉ acc := hacc off (Nat.le_refl off)
    have hacc' : ∀ j, off + 1 ≤ j → j ∉ acc :=
      fun j hj => hacc j (Nat.le_of_succ_le hj)
    by_cases ht : t.ready = true ∧ t.success = false
    · simp only [tickGo, if_neg hoff, ht.1, Bool.not_true, Bool.false_eq_true,
        if_false, ht.2, Bool.not_false, Bool.and_self, if_true,
        Option.isSome_some]
    · have hex' : ∃ x ∈ ts, x.ready = true ∧ x.success = false := by
        rcases hex with ⟨x, hx, hxf⟩
        rcases List.mem_cons.mp hx with rfl | hx'
        · exact absurd hxf ht
        · exact ⟨x, hx', hxf⟩
      cases htr : t.ready with
      | false =>
        simp only [tickGo, if_neg hoff, htr, Bool.not_false, if_true]
        exact ih (off + 1) acc true hex' hacc'
      | true =>
        have hts : t.success = true := by
          cases hs : t.success with
          | true => rfl
          | false => exact absurd ⟨htr, hs⟩ ht
        have hacc3 : ∀ j, off + 1 ≤ j → j ∉ off :: acc := by
          intro j hj hmem
          rcases List.mem_cons.mp hmem with rfl | hmem'
          · omega
          · exact hacc j (by omega) hmem'
        simp only [tickGo, if_neg hoff, htr, Bool.not_true, Bool.false_eq_true,
          if_false, hts, Bool.and_false, if_false]
        exact ih (off + 1) (off :: acc) inc hex' hacc3

/-! Claim C1. -/

/-- C1: when `wait(fail_fast=true)` scans a registry in which task `k` is
terminal and Failed and no earlier-submitted task is currently
terminal-and-Failed (earlier tasks may be succeeded or still running), the
call raises `TaskFailed` for exactly task `k`: the error references that
handle's name and carries its captured error (the `exception` field, which
the code also chains as `__cause__` via `raise ... from exc`).  Scanning
order is registry order, i.e. submission order, so the earliest-submitted
currently-failing task is reported, not necessarily the one that finished
first.  The initial completed cache `c` is arbitrary because `wait` clears
it on entry. -/
theorem claim_C1_fail_fast_reports_earliest_failed
    (tasks : List (ApplyResult α)) (c : List Nat) (maxWait : Option Nat)
    (elapsed : Nat → Nat) (fuel : Nat) (k : Nat) (hk : k < tasks.length)
    (hfuel : 1 ≤ fuel)
    (htime : timeoutFires maxWait (elapsed 0) = false)
    (hready : (tasks.get ⟨k, hk⟩).ready = true)
    (hfail : (tasks.get ⟨k, hk⟩).success = false)
    (hmin : ∀ j (hj : j < tasks.length), j < k →
      ¬((tasks.get ⟨j, hj⟩).ready = true ∧ (tasks.get ⟨j, hj⟩).success = false)) :
    (wait true maxWait elapsed fuel ⟨tasks, c⟩).1 =
      WaitOutcome.taskFailed
        ⟨(tasks.get ⟨k, hk⟩).name, (tasks.get ⟨k, hk⟩).value⟩ := by
  obtain ⟨f, rfl⟩ : ∃ f, fuel = f + 1 :=
    ⟨fuel - 1, (Nat.succ_pred_eq_of_pos hfuel).symm⟩
  have herr := tickGo_first_fail tasks 0 [] false k hk hready hfail hmin
    (fun j _ hmem => (List.not_mem_nil j) hmem)
  rcases hres : tickGo true tasks 0 [] false with ⟨comp, inc2, err⟩
  rw [hres] at herr
  simp only at herr
  subst herr
  unfold wait waitLoop
  rw [if_neg (by rw [htime]; exact Bool.false_ne_true)]
  simp only [waitTick, hres]

/-- C1 witness: three terminal tasks — index 0 Succeeded, indices 1 and 2
Failed.  Fail-fast reports index 1, the earliest-submitted failing task,
with its name and error. -/
theorem claim_C1_fail_fast_reports_earliest_failed_witness :
    (wait true none (fun _ => 0) 3
      (⟨[⟨"ok", true, true, "True"⟩, ⟨"first_fail", true, false, "boom"⟩,
         ⟨"second_fail", true, false, "later"⟩], [1, 2]⟩ : PRun String)).1 =
      WaitOutcome.taskFailed ⟨"first_fail", "boom"⟩ := by
  exact claim_C1_fail_fast_reports_earliest_failed
    [⟨"ok", true, true, "True"⟩, ⟨"first_fail", true, false, "boom"⟩,
     ⟨"second_fail", true, false, "later"⟩] [1, 2] none (fun _ => 0) 3 1
    (by decide) (by decide) rfl rfl rfl
    (by
      intro j hj hjk
      have hj0 : j = 0 := by omega
      subst hj0
      simp)

/-! Claim C10. -/

/-- C10: `wait` clears the completed-task cache on entry
(`self.completed_tasks.clear()`), modelled by the initial cache `c` being
arbitrary — including a cache left over from an earlier `wait` that already
surfaced the failure.  Hence in a run holding a terminal Failed task, every
`wait(fail_fast=true)` call raises `TaskFailed` again: an already-surfaced
failure is re-observed and re-raised, not suppressed. -/
theorem claim_C10_rewait_reraises_failure (tasks : List (ApplyResult α))
    (c : List Nat) (maxWait : Option Nat) (elapsed : Nat → Nat) (fuel : Nat)
    (hfuel : 1 ≤ fuel)
    (htime : timeoutFires maxWait (elapsed 0) = false)
    (hfail : ∃ t ∈ tasks, t.ready = true ∧ t.success = false) :
    ∃ e, (wait true maxWait elapsed fuel ⟨tasks, c⟩).1 =
      WaitOutcome.taskFailed e := by
  obtain ⟨f, rfl⟩ : ∃ f, fuel = f + 1 :=
    ⟨fuel - 1, (Nat.succ_pred_eq_of_pos hfuel).symm⟩
  have hsome := tickGo_exists_fail tasks 0 [] false hfail
    (fun j _ hmem => (List.not_mem_nil j) hmem)
  rcases hres : tickGo true tasks 0 [] false with ⟨comp, inc2, err⟩
  rw [hres] at hsome
  simp only at hsome
  rcases Option.isSome_iff_exists.mp hsome with ⟨e, he⟩
  subst he
  refine ⟨e, ?_⟩
  unfold wait waitLoop
  rw [if_neg (by rw [htime]; exact Bool.false_ne_true)]
  simp only [waitTick, hres]

/-- C10 witness: a run whose completed cache already contains the failed
task's index 0 (as after a previous fail-fast `wait` on it, which adds the
task to the cache before raising): a fresh `wait(fail_fast=true)` still
raises `TaskFailed` because the cache is cleared on entry. -/
theorem claim_C10_rewait_reraises_failure_witness :
    ∃ e, (wait true none (fun _ => 0) 2
      (⟨[⟨"agh", true, false, "agh!"⟩, ⟨"slow", false, false, "?"⟩],
        [0]⟩ : PRun String)).1 = WaitOutcome.taskFailed e := by
  exact claim_C10_rewait_reraises_failure
    [⟨"agh", true, false, "agh!"⟩, ⟨"slow", false, false, "?"⟩] [0] none
    (fun _ => 0) 2 (by decide) rfl
    ⟨⟨"agh", true, false, "agh!"⟩, by decide, rfl, rfl⟩

/-! Claim C5. -/

theorem chord_foldl_addTask (ts : List (ApplyResult α)) :
    ∀ (ch : Chord α),
      (ts.foldl Chord.addTask ch).pool = ch.pool ∧
      (ts.foldl Chord.addTask ch).run.tasks = ch.run.tasks ++ ts := by
  induction ts with
  | nil =>
    intro ch
    exact ⟨rfl, (List.append_nil ch.run.tasks).symm⟩
  | cons t ts ih =>
    intro ch
    rcases ih (ch.addTask t) with ⟨hp, ht⟩
    refine ⟨hp, ?_⟩
    rw [List.foldl_cons, ht]
    show (ch.run.tasks ++ [t]) ++ ts = ch.run.tasks ++ t :: ts
    rw [List.append_assoc, List.singleton_append]

/-- C5 (spec-modelled; the `Chord` class is not under `src/`, only its
callers in the tests are): `chord()` creates and returns a new Chord bound
to the same Worker Pool reference as the orchestrator, with a fresh empty
registry; and the Chord's `add_task`/`wait`/`maybe_raise`/`return_values`/
`exceptions` follow the orchestrator's contract scoped to the Chord's own
registered handles: after registering any task list `ts` on the chord, its
registry holds exactly `ts` (not the orchestrator's tasks), its pool is
still the shared one, and each of its read/wait operations computes the
registry-generic operation applied to `ts` alone. -/
theorem claim_C5_chord_shares_pool_scoped_registry (p : ParallelRun α)
    (ts : List (ApplyResult α)) :
    (p.chord).pool = p.pool ∧
    (p.chord).run.tasks = [] ∧
    (ts.foldl Chord.addTask p.chord).pool = p.pool ∧
    (ts.foldl Chord.addTask p.chord).run.tasks = ts ∧
    Chord.returnValues (ts.foldl Chord.addTask p.chord) = returnValues ts ∧
    Chord.exceptions (ts.foldl Chord.addTask p.chord) = exceptions ts ∧
    Chord.maybeRaise (ts.foldl Chord.addTask p.chord) = maybeRaise ts ∧
    (∀ (failFast : Bool) (maxWait : Option Nat) (elapsed : Nat → Nat)
      (fuel : Nat),
      Chord.wait (ts.foldl Chord.addTask p.chord) failFast maxWait elapsed
          fuel =
        wait failFast maxWait elapsed fuel ⟨ts, []⟩) := by
  rcases chord_foldl_addTask ts p.chord with ⟨hp, ht⟩
  have hts : (ts.foldl Chord.addTask p.chord).run.tasks = ts := by
    rw [ht]
    rfl
  refine ⟨rfl, rfl, hp, hts, ?_, ?_, ?_, ?_⟩
  · unfold Chord.returnValues
    rw [hts]
  · unfold Chord.exceptions
    rw [hts]
  · unfold Chord.maybeRaise
    rw [hts]
  · intro failFast maxWait elapsed fuel
    unfold Chord.wait wait
    rw [hts]

end HaiParallel
